import Mathlib

/-!
A shallow embedding of the pizza-analytics engine in
src/components/dashboard/PixelAnalyticsDashboard.tsx, together with proofs
of the specified properties of its validator, synthetic generator,
time-range filter, minute-bucket aggregator, sliding-window peak finder,
display filter and CSV exporter.

Modelling conventions:
* JavaScript numbers that carry event data (confidence values, parsed
  time components) are modelled as rationals; 32-bit integer operations
  of the PRNG are modelled on naturals reduced modulo 2^32.
* The JS builtins `Number` (string to number coercion) and `Date.parse`
  are external to the repository; functions that call them take explicit
  parameters `numP : String → Option ℚ` (`none` = NaN or non-finite) and
  `dateP : String → Option ℤ` (`none` = unparseable, `some ms` = epoch
  milliseconds), and theorems quantify over those parameters.
* `String.split(":")` is modelled character-wise by `splitChar`, which has
  the same semantics on every string (empty string gives one empty part).
* The embedding covers the completed-session state of the component: the
  `if (!completed) return []` gates of the React component are UI state
  handling, not part of the data pipeline.
-/

namespace PixelAnalytics

/-- The four size categories (`PizzaSize` in the source). -/
inductive PizzaSize where
  | Small
  | Medium
  | Large
  | XL
deriving DecidableEq, Repr

/-- The string form of a category, as stored in raw records. -/
def sizeStr : PizzaSize → String
  | .Small => "Small"
  | .Medium => "Medium"
  | .Large => "Large"
  | .XL => "XL"

/-- Canonical validated event (`DetectionEvent` in the source). -/
structure DetectionEvent where
  id : String
  time : String
  size : PizzaSize
  confidence : ℚ
  source : String
  timestamp : Option String
deriving DecidableEq, Repr

/-- One per-minute chart bucket (`MinutePoint` in the source). -/
structure MinutePoint where
  minute : String
  total : ℕ
  Small : ℕ
  Medium : ℕ
  Large : ℕ
  XL : ℕ
deriving DecidableEq, Repr

/-- The relative time-range selector (`TimeRangeKey` in the source). -/
inductive TimeRangeKey where
  | all
  | m5
  | m10
  | m30
  | m60
deriving DecidableEq, Repr

/-- Model of `clamp(n, min, max)` from the source, on rationals. -/
def clampQ (n lo hi : ℚ) : ℚ := min hi (max lo n)

/-- Model of `clamp(n, min, max)` from the source, on naturals. -/
def clampN (n lo hi : ℕ) : ℕ := min hi (max lo n)

/-- Model of `String(x).padStart(2, "0")` on a numeral. -/
def padStart2 (s : String) : String := String.mk (List.replicate (2 - s.length) '0') ++ s

/-- Model of `String(x).padStart(4, "0")` on a numeral. -/
def padStart4 (s : String) : String := String.mk (List.replicate (4 - s.length) '0') ++ s

/-- Function `toMinLabel` from the source: minute index to a `00:MM` label. -/
def toMinLabel (idx : ℕ) : String := "00:" ++ padStart2 (toString idx)

/-- Function `toHms` from the source on a natural number of seconds (the
clamping `Math.max(0, Math.floor(...))` there is the identity on naturals). -/
def toHms (seconds : ℕ) : String :=
  let h := seconds / 3600
  let m := seconds % 3600 / 60
  let sec := seconds % 60
  padStart2 (toString h) ++ ":" ++ padStart2 (toString m) ++ ":" ++ padStart2 (toString sec)

/-- The synthesized id scheme `"EVT-" + String(idx1).padStart(4, "0")`. -/
def evtId (idx1 : ℕ) : String := "EVT-" ++ padStart4 (toString idx1)

/-- Character-level model of JavaScript `s.split(sep)` for a one-character
separator: the empty string yields one empty part, and a trailing
separator yields a trailing empty part. -/
def splitChar (sep : Char) : List Char → List (List Char)
  | [] => [[]]
  | c :: cs =>
    if c = sep then [] :: splitChar sep cs
    else
      match splitChar sep cs with
      | [] => [[c]]
      | f :: fs => (c :: f) :: fs

/-- Function `hmsToSeconds` from the source: split on `":"`, coerce the parts with
`Number` (modelled by `numP`), and if there are exactly three finite
components return `max(0, floor(h*3600 + m*60 + s))`, else `0`. -/
def hmsToSeconds (numP : String → Option ℚ) (hms : String) : ℕ :=
  match (splitChar ':' hms.data).map (fun p => numP (String.mk p)) with
  | [some h, some m, some s] => (Int.floor (h * 3600 + m * 60 + s)).toNat
  | _ => 0

/-- Function `parseDateTimeMs` from the source: `null`/absent gives `null`,
otherwise `Date.parse` (modelled by `dateP`), with NaN mapped to `null`. -/
def parseDateTimeMs (dateP : String → Option ℤ) (v : Option String) : Option ℤ :=
  v.bind dateP

/-! ## EventValidator (the `load` mapper in the source) -/

/-- A loosely-typed raw feed record; each field is absent or a value
(already coerced to the type the source coerces it to). `confidence` is
`some q` exactly when `Number(e.confidence)` is the finite number `q`. -/
structure RawRecord where
  size : Option String
  time : Option String
  confidence : Option ℚ
  source : Option String
  id : Option String
  timestamp : Option String
  datetime : Option String
  dateTime : Option String
deriving Repr

/-- Model of `String(x || d)` for a string-or-absent field: absent or empty
(falsy) gives the default. -/
def orElseStr (o : Option String) (d : String) : String :=
  match o with
  | none => d
  | some s => if s.isEmpty then d else s

/-- The source's four-way size check plus cast to the closed category set. -/
def parseSize (s : String) : Option PizzaSize :=
  if s = "Small" then some .Small
  else if s = "Medium" then some .Medium
  else if s = "Large" then some .Large
  else if s = "XL" then some .XL
  else none

/-- The per-record mapper inside `load` (index `idx` is the record's
0-based position in the raw list): unknown size drops the record, other
fields are defaulted as in the source. -/
def mkEvent (idx : ℕ) (r : RawRecord) : Option DetectionEvent :=
  match parseSize (orElseStr r.size "") with
  | none => none
  | some sz =>
    some
      { id := orElseStr r.id (evtId (idx + 1))
        time := orElseStr r.time "00:00:00"
        size := sz
        confidence := r.confidence.getD (9 / 10)
        source := orElseStr r.source "Cutting Table 1"
        timestamp := (r.timestamp.orElse fun _ => r.datetime.orElse fun _ => r.dateTime) }

/-- The map-then-filter pass of `load`, carrying the running 0-based index. -/
def validateAux (k : ℕ) : List RawRecord → List DetectionEvent
  | [] => []
  | r :: rs =>
    match mkEvent k r with
    | some e => e :: validateAux (k + 1) rs
    | none => validateAux (k + 1) rs

/-- The validation pass of `load` over the raw `events` array. -/
def loadEvents (rl : List RawRecord) : List DetectionEvent := validateAux 0 rl

/-! ## SyntheticEventGenerator (`mulberry32`, `seedFromString`, `baseEvents`) -/

/-- The modulus of the 32-bit PRNG arithmetic. -/
def two32 : ℕ := 4294967296

/-- One step of `mulberry32`: the state is the running counter `t` (kept
exact, as the JS float is below 2^53 for every draw made here); all
32-bit coercions become reduction modulo 2^32. Returns the new state and
the draw in `[0, 1)`. -/
def mulberryNext (t : ℕ) : ℕ × ℚ :=
  let t1 := t + 0x6D2B79F5
  let x0 := t1 % two32
  let x1 := (Nat.xor x0 (x0 >>> 15)) * (x0 ||| 1) % two32
  let inner := (Nat.xor x1 (x1 >>> 7)) * (x1 ||| 61) % two32
  let x2 := Nat.xor x1 ((x1 + inner) % two32)
  let out := Nat.xor x2 (x2 >>> 14)
  (t1, (out : ℚ) / two32)

/-- Function `seedFromString`: FNV-style fold over the string's code units
(modelled as the Lean characters' code points). -/
def seedFromString (s : String) : ℕ :=
  s.data.foldl (fun h c => (Nat.xor h c.toNat) * 16777619 % two32) 2166136261

/-- The weighted category walk of `baseEvents` with cumulative weights
0.22 / 0.60 / 0.91 / 1.00 and the source's `Medium` fallback. The exact
rational boundaries select the same category as the source's float
accumulation for every representable draw `k/2^32`. -/
def pickSize (r : ℚ) : PizzaSize :=
  if r ≤ 22 / 100 then .Small
  else if r ≤ 60 / 100 then .Medium
  else if r ≤ 91 / 100 then .Large
  else if r ≤ 1 then .XL
  else .Medium

/-- JavaScript `Math.round` on rationals: round half away from zero
upward, i.e. `floor(x + 1/2)`. -/
def jsRound (q : ℚ) : ℤ := Int.floor (q + 1 / 2)

/-- The generation loop of `baseEvents`: `fuel` counts the remaining
events, `i` is the loop index, `t` the PRNG state. Each event draws a
category and then a confidence. -/
def genGo : ℕ → ℕ → ℕ → List DetectionEvent
  | 0, _, _ => []
  | fuel + 1, i, t =>
    let t0 := (Int.floor (((i : ℚ) / 220) * 3600)).toNat
    let s1 := mulberryNext t
    let pick := pickSize s1.2
    let s2 := mulberryNext s1.1
    let conf := clampQ (72 / 100 + s2.2 * (27 / 100)) 0 1
    { id := evtId (i + 1)
      time := toHms t0
      size := pick
      confidence := (jsRound (conf * 1000) : ℚ) / 1000
      source := "Cutting Table 1"
      timestamp := none } :: genGo fuel (i + 1) s2.1

/-- The synthetic branch of `baseEvents` as a function of the seed string
(the source seeds with `videoName + ":events"`). -/
def genEvents (seed : String) : List DetectionEvent :=
  genGo 220 0 (seedFromString seed)

/-! ## TimeRangeFilter (`timeFilteredEvents` in the source) -/

/-- Truthiness of an optional string bound (`!!dateTimeFrom`): absent or
empty is falsy. -/
def truthyStr : Option String → Bool
  | none => false
  | some s => !s.isEmpty

/-- The source's ternary chain for the relative window size in minutes
(`all` is handled before the chain runs and falls to the 60 arm). -/
def trMinutes : TimeRangeKey → ℕ
  | .m5 => 5
  | .m10 => 10
  | .m30 => 30
  | _ => 60

/-- Model of `Math.max(0, ...times)` over the working set offsets. -/
def maxOffset (numP : String → Option ℚ) (events : List DetectionEvent) : ℕ :=
  (events.map (fun e => hmsToSeconds numP e.time)).foldl Nat.max 0

/-- Function `timeFilteredEvents`: absolute datetime mode when a from/to bound is
truthy (events without a parseable timestamp are excluded, a bound that
does not parse is unbounded), else the relative trailing window over the
set's own maximum offset, with `all` the identity. `Math.max(0, maxSec -
secs)` is natural subtraction. -/
def timeFilteredEvents (numP : String → Option ℚ) (dateP : String → Option ℤ)
    (dtFrom dtTo : Option String) (tr : TimeRangeKey)
    (events : List DetectionEvent) : List DetectionEvent :=
  if truthyStr dtFrom || truthyStr dtTo then
    let fromMs := parseDateTimeMs dateP dtFrom
    let toMs := parseDateTimeMs dateP dtTo
    events.filter fun e =>
      match parseDateTimeMs dateP e.timestamp with
      | none => false
      | some ms =>
        (match fromMs with
         | some f => decide (f ≤ ms)
         | none => true) &&
        (match toMs with
         | some t => decide (ms ≤ t)
         | none => true)
  else
    match tr with
    | .all => events
    | _ =>
      let secs := trMinutes tr * 60
      if events.isEmpty then []
      else
        let maxSec := maxOffset numP events
        let minSec := maxSec - secs
        events.filter fun e =>
          let s := hmsToSeconds numP e.time
          decide (minSec ≤ s) && decide (s ≤ maxSec)

/-! ## TimeBucketAggregator (`minuteData`, `totals` in the source) -/

/-- The bucket index of an event: `clamp(floor(sec / 60), 0, 59)`. -/
def minIdx (numP : String → Option ℚ) (e : DetectionEvent) : ℕ :=
  clampN (hmsToSeconds numP e.time / 60) 0 59

/-- Increment a bucket's total and its category count for one event. -/
def bumpPoint (sz : PizzaSize) (b : MinutePoint) : MinutePoint :=
  match sz with
  | .Small => { b with total := b.total + 1, Small := b.Small + 1 }
  | .Medium => { b with total := b.total + 1, Medium := b.Medium + 1 }
  | .Large => { b with total := b.total + 1, Large := b.Large + 1 }
  | .XL => { b with total := b.total + 1, XL := b.XL + 1 }

/-- In-place update of `buckets[i]`; an out-of-range index leaves the
list unchanged (the source's `if (!b) continue`). -/
def bumpAt : List MinutePoint → ℕ → PizzaSize → List MinutePoint
  | [], _, _ => []
  | b :: bs, 0, sz => bumpPoint sz b :: bs
  | b :: bs, i + 1, sz => b :: bumpAt bs i sz

/-- The 60 zero-valued buckets the aggregation starts from. -/
def initBuckets : List MinutePoint :=
  (List.range 60).map fun i =>
    { minute := toMinLabel i, total := 0, Small := 0, Medium := 0, Large := 0, XL := 0 }

/-- Function `minuteData`: one linear pass folding every event into its bucket. -/
def minuteData (numP : String → Option ℚ) (events : List DetectionEvent) : List MinutePoint :=
  events.foldl (fun bs e => bumpAt bs (minIdx numP e) e.size) initBuckets

/-- The session totals record built by `totals` in the source. -/
structure Totals where
  total : ℕ
  Small : ℕ
  Medium : ℕ
  Large : ℕ
  XL : ℕ
deriving DecidableEq, Repr

/-- Function `totals` from the source: elementwise sum of all buckets. -/
def totalsOf (bs : List MinutePoint) : Totals :=
  bs.foldl
    (fun a p =>
      { total := a.total + p.total
        Small := a.Small + p.Small
        Medium := a.Medium + p.Medium
        Large := a.Large + p.Large
        XL := a.XL + p.XL })
    { total := 0, Small := 0, Medium := 0, Large := 0, XL := 0 }

/-- Sum of the buckets' totals. -/
def sumTotals (bs : List MinutePoint) : ℕ := (bs.map MinutePoint.total).sum

/-! ## SlidingWindowPeakFinder (`peak10Min` in the source) -/

/-- The inner loop's window sum: `minuteData[i+j]?.total ?? 0` summed for
`j < 10`. -/
def winSum (bs : List MinutePoint) (i : ℕ) : ℕ :=
  ((List.range 10).map fun j => ((bs.get? (i + j)).map MinutePoint.total).getD 0).sum

/-- The scan loop: `n` iterations left, current index `i`, running best
sum and its start; a new window wins only with a strictly greater sum. -/
def peakGo (win : ℕ → ℕ) : ℕ → ℕ → ℕ → ℕ → ℕ × ℕ
  | 0, _, best, bestStart => (best, bestStart)
  | n + 1, i, best, bestStart =>
    let s := win i
    if best < s then peakGo win n (i + 1) s i
    else peakGo win n (i + 1) best bestStart

/-- The loop `for (i = 0; i <= len - 10; i++)` runs `len + 1 - 10`
iterations (none when there are fewer than 10 buckets). -/
def peakFind (bs : List MinutePoint) : ℕ × ℕ :=
  peakGo (winSum bs) (bs.length + 1 - 10) 0 0 0

/-- Function `peak10Min`: best count plus the start/end minute labels. -/
def peak10Min (bs : List MinutePoint) : ℕ × String × String :=
  let p := peakFind bs
  (p.1, toMinLabel p.2, toMinLabel (p.2 + 9))

/-! ## DisplayFilter (`filteredEvents` in the source) -/

/-- Confidence-threshold filter followed by the size filter (`none`
models the "All" selector). -/
def filteredEvents (cmin : ℚ) (sf : Option PizzaSize)
    (events : List DetectionEvent) : List DetectionEvent :=
  (events.filter fun e => decide (cmin ≤ e.confidence)).filter fun e =>
    match sf with
    | none => true
    | some s => decide (e.size = s)

/-! ## CsvExporter (`downloadCsv` in the source) -/

/-- Model of the source's `replaceAll`: double every embedded
double-quote character of a field. -/
def escQuote : List Char → List Char
  | [] => []
  | c :: cs => if c = '"' then '"' :: '"' :: escQuote cs else c :: escQuote cs

/-- Wrap an escaped field in double quotes. -/
def quoteField (s : List Char) : List Char := '"' :: (escQuote s ++ ['"'])

/-- Model of `Array.join(",")`. -/
def joinComma : List (List Char) → List Char
  | [] => []
  | [f] => f
  | f :: fs => f ++ ',' :: joinComma fs

/-- One CSV data row: the five fields, each quoted. `confStr` models
JavaScript `String(number)` for the confidence field. -/
def csvRowOf (confStr : ℚ → List Char) (e : DetectionEvent) : List Char :=
  joinComma ([e.time.data, (sizeStr e.size).data, confStr e.confidence,
    e.source.data, e.id.data].map quoteField)

/-- The header row `time,size,confidence,source,id` (unquoted, as in the
source's `header.join(",")`). -/
def csvHeader : List Char := "time,size,confidence,source,id".data

/-- The full line list of `downloadCsv`: header then one row per event in
list order. -/
def csvLines (confStr : ℚ → List Char) (rows : List DetectionEvent) : List (List Char) :=
  csvHeader :: rows.map (csvRowOf confStr)

/-- Standard CSV unquoting of a line of all-quoted fields; the scan is in
a field body after its opening quote, `acc` holding the characters read.
A lone closing quote ends the line's last field; a closing quote followed
by a comma and an opening quote starts the next field; a doubled quote is
a literal quote character. -/
def unqGo : List Char → List Char → Option (List (List Char))
  | _, [] => none
  | acc, c :: rest =>
    if c = '"' then
      match rest with
      | [] => some [acc]
      | d :: rest2 =>
        if d = '"' then unqGo (acc ++ ['"']) rest2
        else if d = ',' then
          match rest2 with
          | [] => none
          | e :: rest3 =>
            if e = '"' then (unqGo [] rest3).map fun fs => acc :: fs
            else none
        else none
    else unqGo (acc ++ [c]) rest

/-- Parse one CSV line of quoted fields back into its field strings. -/
def parseLine : List Char → Option (List (List Char))
  | '"' :: rest => unqGo [] rest
  | _ => none

/-! ## Aggregator lemmas -/

/-- A bucket is balanced when its total equals the sum of its four
per-category counts. -/
def Balanced (b : MinutePoint) : Prop :=
  b.total = b.Small + b.Medium + b.Large + b.XL

theorem bumpPoint_total (sz : PizzaSize) (b : MinutePoint) :
    (bumpPoint sz b).total = b.total + 1 := by
  cases sz <;> rfl

theorem bumpPoint_balanced (sz : PizzaSize) (b : MinutePoint) (h : Balanced b) :
    Balanced (bumpPoint sz b) := by
  cases sz <;> simp [Balanced, bumpPoint] at h ⊢ <;> omega

theorem bumpAt_length (bs : List MinutePoint) (i : ℕ) (sz : PizzaSize) :
    (bumpAt bs i sz).length = bs.length := by
  induction bs generalizing i with
  | nil => rfl
  | cons b bs ih =>
    cases i with
    | zero => rfl
    | succ j => simp [bumpAt, ih]

theorem bumpAt_balanced (bs : List MinutePoint) (i : ℕ) (sz : PizzaSize)
    (h : ∀ b ∈ bs, Balanced b) : ∀ b ∈ bumpAt bs i sz, Balanced b := by
  induction bs generalizing i with
  | nil => intro b hb; simp [bumpAt] at hb
  | cons b0 bs ih =>
    cases i with
    | zero =>
      intro b hb
      rcases List.mem_cons.1 hb with h1 | h1
      · exact h1 ▸ bumpPoint_balanced _ _ (h b0 (List.mem_cons_self _ _))
      · exact h b (List.mem_cons_of_mem _ h1)
    | succ j =>
      intro b hb
      rcases List.mem_cons.1 hb with h1 | h1
      · exact h1 ▸ h b0 (List.mem_cons_self _ _)
      · exact ih j (fun x hx => h x (List.mem_cons_of_mem _ hx)) b h1

theorem initBuckets_balanced : ∀ b ∈ initBuckets, Balanced b := by
  intro b hb
  simp only [initBuckets, List.mem_map] at hb
  obtain ⟨i, _, rfl⟩ := hb
  simp [Balanced]

theorem foldl_bump_balanced (numP : String → Option ℚ) :
    ∀ (events : List DetectionEvent) (bs : List MinutePoint),
      (∀ b ∈ bs, Balanced b) →
      ∀ b ∈ events.foldl (fun bs e => bumpAt bs (minIdx numP e) e.size) bs, Balanced b := by
  intro events
  induction events with
  | nil => intro bs h; simpa using h
  | cons e es ih =>
    intro bs h
    exact ih _ (bumpAt_balanced _ _ _ h)

theorem sumTotals_bumpAt (bs : List MinutePoint) (i : ℕ) (sz : PizzaSize)
    (h : i < bs.length) : sumTotals (bumpAt bs i sz) = sumTotals bs + 1 := by
  induction bs generalizing i with
  | nil => simp at h
  | cons b bs ih =>
    cases i with
    | zero => simp [bumpAt, sumTotals, bumpPoint_total]; omega
    | succ j =>
      have hj : j < bs.length := by simpa using h
      simp [bumpAt, sumTotals] at ih ⊢
      rw [ih j hj]; omega

theorem minIdx_lt (numP : String → Option ℚ) (e : DetectionEvent) :
    minIdx numP e < 60 :=
  Nat.lt_succ_of_le (Nat.min_le_left 59 _)

theorem initBuckets_length : initBuckets.length = 60 := by
  simp [initBuckets]

theorem sumTotals_initBuckets : sumTotals initBuckets = 0 := by
  simp only [initBuckets, sumTotals, List.map_map]
  exact List.sum_eq_zero (by simp [Function.comp])

theorem foldl_bump_len_sum (numP : String → Option ℚ) :
    ∀ (events : List DetectionEvent) (bs : List MinutePoint), bs.length = 60 →
      (events.foldl (fun bs e => bumpAt bs (minIdx numP e) e.size) bs).length = 60 ∧
      sumTotals (events.foldl (fun bs e => bumpAt bs (minIdx numP e) e.size) bs) =
        sumTotals bs + events.length := by
  intro events
  induction events with
  | nil => intro bs h; simpa using h
  | cons e es ih =>
    intro bs h
    have hlen : (bumpAt bs (minIdx numP e) e.size).length = 60 := by
      rw [bumpAt_length]; exact h
    have hidx : minIdx numP e < bs.length := h ▸ minIdx_lt numP e
    obtain ⟨h1, h2⟩ := ih _ hlen
    refine ⟨h1, ?_⟩
    simp only [List.foldl_cons] at h2 ⊢
    rw [h2, sumTotals_bumpAt _ _ _ hidx, List.length_cons]
    omega

theorem totalsOf_total : ∀ (bs : List MinutePoint) (a : Totals),
    (bs.foldl
        (fun a p =>
          { total := a.total + p.total
            Small := a.Small + p.Small
            Medium := a.Medium + p.Medium
            Large := a.Large + p.Large
            XL := a.XL + p.XL })
        a).total = a.total + sumTotals bs := by
  intro bs
  induction bs with
  | nil => intro a; simp [sumTotals]
  | cons b bs ih =>
    intro a
    simp only [List.foldl_cons, ih, sumTotals, List.map_cons, List.sum_cons]
    omega

/-! ## Claim theorems -/

/-- Claim C1: every bucket that the per-minute aggregator produces,
for any `Number` semantics and any input event list, has its total equal
to the sum of its four per-category counts. -/
theorem C1_bucket_total_balanced (numP : String → Option ℚ)
    (events : List DetectionEvent) (b : MinutePoint)
    (hb : b ∈ minuteData numP events) :
    b.total = b.Small + b.Medium + b.Large + b.XL :=
  foldl_bump_balanced numP events initBuckets initBuckets_balanced b hb

/-- A concrete instance of C1: the first zero bucket of an empty run. -/
theorem C1_bucket_total_balanced_witness :
    ({ minute := "00:00", total := 0, Small := 0, Medium := 0, Large := 0, XL := 0 } :
        MinutePoint) ∈ minuteData (fun _ => none) [] ∧
    ({ minute := "00:00", total := 0, Small := 0, Medium := 0, Large := 0, XL := 0 } :
        MinutePoint).total = 0 + 0 + 0 + 0 :=
  ⟨by decide, C1_bucket_total_balanced (fun _ => none) []
    { minute := "00:00", total := 0, Small := 0, Medium := 0, Large := 0, XL := 0 }
    (by decide)⟩

/-- Claim C2: for any `Number` semantics and any input event list the
aggregator produces exactly 60 buckets, the sum of their totals (equally,
the `totals` record's overall count) is the length of the input list,
and every event's bucket index is in range. -/
theorem C2_sixty_buckets_total_conservation (numP : String → Option ℚ)
    (events : List DetectionEvent) :
    (minuteData numP events).length = 60 ∧
    sumTotals (minuteData numP events) = events.length ∧
    (totalsOf (minuteData numP events)).total = events.length ∧
    ∀ e : DetectionEvent, minIdx numP e < 60 := by
  obtain ⟨h1, h2⟩ := foldl_bump_len_sum numP events initBuckets initBuckets_length
  rw [sumTotals_initBuckets] at h2
  refine ⟨h1, by simpa using h2, ?_, fun e => minIdx_lt numP e⟩
  rw [totalsOf, totalsOf_total]
  simpa using h2

/-! ## Peak finder lemmas -/

theorem peakGo_spec (win : ℕ → ℕ) :
    ∀ (n i b s : ℕ),
      (∀ j < i, win j ≤ b) →
      ((b = 0 ∧ s = 0) ∨ (s < i ∧ win s = b ∧ ∀ j < s, win j < b)) →
      (∀ j < i + n, win j ≤ (peakGo win n i b s).1) ∧
      (((peakGo win n i b s).1 = 0 ∧ (peakGo win n i b s).2 = 0) ∨
        ((peakGo win n i b s).2 < i + n ∧
          win (peakGo win n i b s).2 = (peakGo win n i b s).1 ∧
          ∀ j < (peakGo win n i b s).2, win j < (peakGo win n i b s).1)) := by
  intro n
  induction n with
  | zero =>
    intro i b s hmax hatt
    simpa [peakGo] using ⟨hmax, hatt⟩
  | succ n ih =>
    intro i b s hmax hatt
    simp only [peakGo]
    by_cases hlt : b < win i
    · simp only [hlt, if_true]
      have hmax' : ∀ j < i + 1, win j ≤ win i := by
        intro j hj
        rcases Nat.lt_succ_iff_lt_or_eq.1 hj with h | h
        · exact le_of_lt (lt_of_le_of_lt (hmax j h) hlt)
        · exact h ▸ le_refl _
      have hatt' : (win i = 0 ∧ i = 0) ∨
          (i < i + 1 ∧ win i = win i ∧ ∀ j < i, win j < win i) :=
        Or.inr ⟨Nat.lt_succ_self _, rfl, fun j hj => lt_of_le_of_lt (hmax j hj) hlt⟩
      have := ih (i + 1) (win i) i hmax' hatt'
      rwa [show i + 1 + n = i + (n + 1) by omega] at this
    · simp only [hlt, if_false]
      have hmax' : ∀ j < i + 1, win j ≤ b := by
        intro j hj
        rcases Nat.lt_succ_iff_lt_or_eq.1 hj with h | h
        · exact hmax j h
        · exact h ▸ Nat.le_of_not_lt hlt
      have hatt' : (b = 0 ∧ s = 0) ∨ (s < i + 1 ∧ win s = b ∧ ∀ j < s, win j < b) := by
        rcases hatt with h | ⟨h1, h2, h3⟩
        · exact Or.inl h
        · exact Or.inr ⟨Nat.lt_succ_of_lt h1, h2, h3⟩
      have := ih (i + 1) b s hmax' hatt'
      rwa [show i + 1 + n = i + (n + 1) by omega] at this

/-- Claim C3: on a 60-bucket series the peak finder's count is the
maximum 10-bucket window sum over start indices 0..50, its start is the
lowest index attaining that maximum, and the reported window runs from
the start label to the label of start + 9. -/
theorem C3_peak_window (bs : List MinutePoint) (h : bs.length = 60) :
    peak10Min bs =
      ((peakFind bs).1, toMinLabel (peakFind bs).2, toMinLabel ((peakFind bs).2 + 9)) ∧
    (peakFind bs).2 ≤ 50 ∧
    winSum bs (peakFind bs).2 = (peakFind bs).1 ∧
    (∀ i, i ≤ 50 → winSum bs i ≤ (peakFind bs).1) ∧
    (∀ i, i < (peakFind bs).2 → winSum bs i < (peakFind bs).1) := by
  have hcount : bs.length + 1 - 10 = 51 := by rw [h]
  have hpf : peakFind bs = peakGo (winSum bs) 51 0 0 0 := by
    unfold peakFind
    rw [hcount]
  have hspec := peakGo_spec (winSum bs) 51 0 0 0 (by intro j hj; omega)
    (Or.inl ⟨rfl, rfl⟩)
  rw [← hpf] at hspec
  obtain ⟨hmax, hatt⟩ := hspec
  simp only [Nat.zero_add] at hmax hatt
  refine ⟨rfl, ?_, ?_, ?_, ?_⟩
  · rcases hatt with ⟨_, h2⟩ | ⟨h1, _, _⟩
    · omega
    · omega
  · rcases hatt with ⟨h1, h2⟩ | ⟨_, h2, _⟩
    · rw [h1, h2]
      exact Nat.le_zero.1 (h1 ▸ hmax 0 (by omega))
    · exact h2
  · intro i hi
    exact hmax i (by omega)
  · rcases hatt with ⟨_, h2⟩ | ⟨_, _, h3⟩
    · rw [h2]; intro i hi; omega
    · exact h3

/-- The spec's worked example series 5,5,5,5,5,5,5,5,5,5,100,0,...,0. -/
def demoPeakSeries : List MinutePoint :=
  List.replicate 10
      ({ minute := "a", total := 5, Small := 0, Medium := 0, Large := 0, XL := 0 } :
        MinutePoint) ++
    { minute := "a", total := 100, Small := 0, Medium := 0, Large := 0, XL := 0 } ::
      List.replicate 49
        ({ minute := "a", total := 0, Small := 0, Medium := 0, Large := 0, XL := 0 } :
          MinutePoint)

/-- A concrete instance of C3 on the series 5,5,5,5,5,5,5,5,5,5,100,0,...:
the window starting at minute 1 (sum 145) wins. -/
theorem C3_peak_window_witness :
    demoPeakSeries.length = 60 ∧
    (peak10Min demoPeakSeries =
      ((peakFind demoPeakSeries).1, toMinLabel (peakFind demoPeakSeries).2,
        toMinLabel ((peakFind demoPeakSeries).2 + 9)) ∧
    (peakFind demoPeakSeries).2 ≤ 50 ∧
    winSum demoPeakSeries (peakFind demoPeakSeries).2 = (peakFind demoPeakSeries).1 ∧
    (∀ i, i ≤ 50 → winSum demoPeakSeries i ≤ (peakFind demoPeakSeries).1) ∧
    (∀ i, i < (peakFind demoPeakSeries).2 →
      winSum demoPeakSeries i < (peakFind demoPeakSeries).1)) :=
  ⟨by decide, C3_peak_window demoPeakSeries (by decide)⟩

/-! ## Time-range filter lemmas -/

theorem foldl_max_le (l : List ℕ) : ∀ (a : ℕ),
    a ≤ l.foldl Nat.max a ∧ ∀ x ∈ l, x ≤ l.foldl Nat.max a := by
  induction l with
  | nil => intro a; simp
  | cons x l ih =>
    intro a
    obtain ⟨h1, h2⟩ := ih (Nat.max a x)
    rw [List.foldl_cons]
    refine ⟨le_trans (Nat.le_max_left a x) h1, ?_⟩
    intro y hy
    rcases List.mem_cons.1 hy with h | h
    · rw [h]
      exact le_trans (Nat.le_max_right a x) h1
    · exact h2 y h

theorem foldl_max_mem (l : List ℕ) : ∀ (a : ℕ),
    l.foldl Nat.max a = a ∨ l.foldl Nat.max a ∈ l := by
  induction l with
  | nil => intro a; left; rfl
  | cons x l ih =>
    intro a
    rw [List.foldl_cons]
    rcases ih (Nat.max a x) with h | h
    · rcases Nat.le_total a x with hax | hxa
      · right
        rw [h]
        have hx : Nat.max a x = x := Nat.max_eq_right hax
        rw [hx]
        exact List.mem_cons_self _ _
      · left
        rw [h]
        exact Nat.max_eq_left hxa
    · right
      exact List.mem_cons_of_mem _ h

theorem maxOffset_is_max (numP : String → Option ℚ) (events : List DetectionEvent)
    (hne : events ≠ []) :
    (∀ e ∈ events, hmsToSeconds numP e.time ≤ maxOffset numP events) ∧
    ∃ e ∈ events, hmsToSeconds numP e.time = maxOffset numP events := by
  constructor
  · intro e he
    exact (foldl_max_le (events.map fun e => hmsToSeconds numP e.time) 0).2 _
      (List.mem_map_of_mem _ he)
  · rcases foldl_max_mem (events.map fun e => hmsToSeconds numP e.time) 0 with h | h
    · obtain ⟨e, he⟩ := List.exists_mem_of_ne_nil events hne
      refine ⟨e, he, ?_⟩
      have hle := (foldl_max_le (events.map fun e => hmsToSeconds numP e.time) 0).2 _
        (List.mem_map_of_mem _ he)
      unfold maxOffset
      omega
    · obtain ⟨e, he, hx⟩ := List.mem_map.1 h
      exact ⟨e, he, hx⟩

theorem relative_filter_eq (numP : String → Option ℚ) (dateP : String → Option ℤ)
    (tr : TimeRangeKey) (events : List DetectionEvent)
    (hne : events ≠ []) (htr : tr ≠ .all) :
    timeFilteredEvents numP dateP none none tr events =
      events.filter fun e =>
        decide (maxOffset numP events - trMinutes tr * 60 ≤ hmsToSeconds numP e.time) &&
        decide (hmsToSeconds numP e.time ≤ maxOffset numP events) := by
  have hemp : events.isEmpty = false := by
    cases events with
    | nil => exact absurd rfl hne
    | cons a l => rfl
  cases tr with
  | all => exact absurd rfl htr
  | m5 => simp [timeFilteredEvents, truthyStr, hemp]
  | m10 => simp [timeFilteredEvents, truthyStr, hemp]
  | m30 => simp [timeFilteredEvents, truthyStr, hemp]
  | m60 => simp [timeFilteredEvents, truthyStr, hemp]

/-- Claim C4: with no absolute bounds, the `all` selector is the identity
filter, and a window selector keeps exactly the events whose offset lies
in the inclusive trailing window below the working set's own maximum
offset, preserving their original order. -/
theorem C4_relative_window (numP : String → Option ℚ) (dateP : String → Option ℤ)
    (tr : TimeRangeKey) (events : List DetectionEvent)
    (hne : events ≠ []) (htr : tr ≠ .all) :
    timeFilteredEvents numP dateP none none .all events = events ∧
    (∀ e ∈ events, hmsToSeconds numP e.time ≤ maxOffset numP events) ∧
    (∃ e ∈ events, hmsToSeconds numP e.time = maxOffset numP events) ∧
    timeFilteredEvents numP dateP none none tr events =
      events.filter fun e =>
        decide (maxOffset numP events - trMinutes tr * 60 ≤ hmsToSeconds numP e.time) &&
        decide (hmsToSeconds numP e.time ≤ maxOffset numP events) := by
  obtain ⟨hub, hmem⟩ := maxOffset_is_max numP events hne
  exact ⟨rfl, hub, hmem, relative_filter_eq numP dateP tr events hne htr⟩

/-- A demonstration event used to instantiate claims at concrete inputs. -/
def evDemo : DetectionEvent :=
  { id := "EVT-0001", time := "00:00:00", size := .Small, confidence := 9 / 10,
    source := "Cutting Table 1", timestamp := none }

/-- A concrete instance of C4 at a one-event list and the 5-minute window. -/
theorem C4_relative_window_witness :
    ([evDemo] ≠ [] ∧ TimeRangeKey.m5 ≠ TimeRangeKey.all) ∧
    (timeFilteredEvents (fun _ => none) (fun _ => none) none none .all [evDemo] = [evDemo] ∧
    (∀ e ∈ [evDemo],
      hmsToSeconds (fun _ => none) e.time ≤ maxOffset (fun _ => none) [evDemo]) ∧
    (∃ e ∈ [evDemo],
      hmsToSeconds (fun _ => none) e.time = maxOffset (fun _ => none) [evDemo]) ∧
    timeFilteredEvents (fun _ => none) (fun _ => none) none none .m5 [evDemo] =
      [evDemo].filter fun e =>
        decide (maxOffset (fun _ => none) [evDemo] - trMinutes .m5 * 60 ≤
          hmsToSeconds (fun _ => none) e.time) &&
        decide (hmsToSeconds (fun _ => none) e.time ≤ maxOffset (fun _ => none) [evDemo])) :=
  ⟨⟨by decide, by decide⟩,
    C4_relative_window (fun _ => none) (fun _ => none) .m5 [evDemo] (by decide) (by decide)⟩

/-- Claim C5: in absolute mode an event is retained exactly when its own
timestamp parses and lies weakly between the bounds that parse; an event
whose timestamp is missing or unparseable is excluded, and a missing or
unparseable bound imposes no constraint on its side. -/
theorem C5_absolute_filter (numP : String → Option ℚ) (dateP : String → Option ℤ)
    (dtF dtT : Option String) (tr : TimeRangeKey) (events : List DetectionEvent)
    (e : DetectionEvent) (habs : truthyStr dtF = true ∨ truthyStr dtT = true) :
    e ∈ timeFilteredEvents numP dateP dtF dtT tr events ↔
      e ∈ events ∧ ∃ ms, parseDateTimeMs dateP e.timestamp = some ms ∧
        (∀ f, parseDateTimeMs dateP dtF = some f → f ≤ ms) ∧
        (∀ t, parseDateTimeMs dateP dtT = some t → ms ≤ t) := by
  have hcond : (truthyStr dtF || truthyStr dtT) = true := by
    rcases habs with h | h <;> simp [h]
  simp only [timeFilteredEvents, hcond, if_true]
  rw [List.mem_filter]
  refine and_congr_right fun _ => ?_
  cases hms : parseDateTimeMs dateP e.timestamp with
  | none => simp [hms]
  | some ms =>
    cases hf : parseDateTimeMs dateP dtF with
    | none =>
      cases ht : parseDateTimeMs dateP dtT with
      | none => simp [hms, hf, ht]
      | some t => simp [hms, hf, ht]
    | some f =>
      cases ht : parseDateTimeMs dateP dtT with
      | none => simp [hms, hf, ht]
      | some t => simp [hms, hf, ht, and_comm]

/-- An event carrying a parseable timestamp, for the C5 instance. -/
def evStamped : DetectionEvent :=
  { id := "EVT-0002", time := "00:01:00", size := .Medium, confidence := 8 / 10,
    source := "Cutting Table 1", timestamp := some "B" }

/-- A date-parse model for witnesses: only the string "B" parses. -/
def dateParseDemo : String → Option ℤ := fun s => if s = "B" then some 15 else none

/-- A concrete instance of C5: a truthy from-bound that fails to parse,
one event with a parseable timestamp. -/
theorem C5_absolute_filter_witness :
    truthyStr (some "x") = true ∧
    (evStamped ∈ timeFilteredEvents (fun _ => none) dateParseDemo (some "x") none .all
        [evStamped] ↔
      evStamped ∈ [evStamped] ∧ ∃ ms,
        parseDateTimeMs dateParseDemo evStamped.timestamp = some ms ∧
        (∀ f, parseDateTimeMs dateParseDemo (some "x") = some f → f ≤ ms) ∧
        (∀ t, parseDateTimeMs dateParseDemo (none : Option String) = some t → ms ≤ t)) :=
  ⟨by decide,
    C5_absolute_filter (fun _ => none) dateParseDemo (some "x") none .all [evStamped]
      evStamped (Or.inl (by decide))⟩

/-! ## Validator lemmas -/

theorem validateAux_append : ∀ (l1 l2 : List RawRecord) (k : ℕ),
    validateAux k (l1 ++ l2) = validateAux k l1 ++ validateAux (k + l1.length) l2 := by
  intro l1
  induction l1 with
  | nil => intro l2 k; simp [validateAux]
  | cons r rs ih =>
    intro l2 k
    simp only [List.cons_append, validateAux, List.append_eq]
    have hidx : k + 1 + rs.length = k + (r :: rs).length := by
      simp only [List.length_cons]
      omega
    cases mkEvent k r with
    | none =>
      rw [ih l2 (k + 1), hidx]
    | some e =>
      rw [ih l2 (k + 1), hidx, List.cons_append]

theorem timeFiltered_subset (numP : String → Option ℚ) (dateP : String → Option ℤ)
    (dtF dtT : Option String) (tr : TimeRangeKey) (l : List DetectionEvent)
    (e : DetectionEvent) (h : e ∈ timeFilteredEvents numP dateP dtF dtT tr l) : e ∈ l := by
  simp only [timeFilteredEvents] at h
  split at h
  · exact (List.mem_filter.1 h).1
  · split at h
    · exact h
    · split at h
      · simp at h
      · exact (List.mem_filter.1 h).1

theorem filteredEvents_subset (cmin : ℚ) (sf : Option PizzaSize)
    (l : List DetectionEvent) (e : DetectionEvent)
    (h : e ∈ filteredEvents cmin sf l) : e ∈ l :=
  (List.mem_filter.1 (List.mem_filter.1 h).1).1

/-- Claim C6: a raw record whose size string is not one of the four
category strings yields no event at all, the validator output splits
around it with the remaining records still processed at their original
positions, and everything downstream of the validator (time filter,
display filter, minute buckets, CSV rows) is built only from that
bad-record-free output. -/
theorem C6_invalid_size_dropped (k : ℕ) (rl1 rl2 : List RawRecord) (r : RawRecord)
    (hbad : orElseStr r.size "" ∉ (["Small", "Medium", "Large", "XL"] : List String)) :
    mkEvent (k + rl1.length) r = none ∧
    validateAux k (rl1 ++ r :: rl2) =
      validateAux k rl1 ++ validateAux (k + rl1.length + 1) rl2 ∧
    (∀ numP dateP dtF dtT tr cmin sf e,
      e ∈ filteredEvents cmin sf
        (timeFilteredEvents numP dateP dtF dtT tr (validateAux k (rl1 ++ r :: rl2))) →
      e ∈ validateAux k rl1 ++ validateAux (k + rl1.length + 1) rl2) ∧
    (∀ numP dateP dtF dtT tr,
      minuteData numP
        (timeFilteredEvents numP dateP dtF dtT tr (validateAux k (rl1 ++ r :: rl2))) =
      minuteData numP (timeFilteredEvents numP dateP dtF dtT tr
        (validateAux k rl1 ++ validateAux (k + rl1.length + 1) rl2))) ∧
    (∀ (confStr : ℚ → List Char) cmin sf numP dateP dtF dtT tr,
      csvLines confStr (filteredEvents cmin sf
        (timeFilteredEvents numP dateP dtF dtT tr (validateAux k (rl1 ++ r :: rl2)))) =
      csvHeader :: (filteredEvents cmin sf
        (timeFilteredEvents numP dateP dtF dtT tr
          (validateAux k (rl1 ++ r :: rl2)))).map (csvRowOf confStr)) := by
  have hps : parseSize (orElseStr r.size "") = none := by
    simp only [List.mem_cons, List.not_mem_nil, or_false, not_or] at hbad
    obtain ⟨h1, h2, h3, h4⟩ := hbad
    simp [parseSize, h1, h2, h3, h4]
  have h1 : mkEvent (k + rl1.length) r = none := by
    simp [mkEvent, hps]
  have h2 : validateAux k (rl1 ++ r :: rl2) =
      validateAux k rl1 ++ validateAux (k + rl1.length + 1) rl2 := by
    rw [validateAux_append]
    congr 1
    simp only [validateAux, h1]
  refine ⟨h1, h2, ?_, ?_, ?_⟩
  · intro numP dateP dtF dtT tr cmin sf e he
    have hmem := timeFiltered_subset numP dateP dtF dtT tr _ e
      (filteredEvents_subset cmin sf _ e he)
    rwa [h2] at hmem
  · intro numP dateP dtF dtT tr
    rw [h2]
  · intro confStr cmin sf numP dateP dtF dtT tr
    rfl

/-- A raw record with the unknown category "Huge". -/
def rHuge : RawRecord :=
  { size := some "Huge", time := none, confidence := none, source := none,
    id := none, timestamp := none, datetime := none, dateTime := none }

/-- A concrete instance of C6 at the single record with size "Huge". -/
theorem C6_invalid_size_dropped_witness :
    orElseStr rHuge.size "" ∉ (["Small", "Medium", "Large", "XL"] : List String) ∧
    (mkEvent (0 + ([] : List RawRecord).length) rHuge = none ∧
    validateAux 0 ([] ++ rHuge :: []) =
      validateAux 0 [] ++ validateAux (0 + ([] : List RawRecord).length + 1) [] ∧
    (∀ numP dateP dtF dtT tr cmin sf e,
      e ∈ filteredEvents cmin sf
        (timeFilteredEvents numP dateP dtF dtT tr (validateAux 0 ([] ++ rHuge :: []))) →
      e ∈ validateAux 0 [] ++ validateAux (0 + ([] : List RawRecord).length + 1) []) ∧
    (∀ numP dateP dtF dtT tr,
      minuteData numP
        (timeFilteredEvents numP dateP dtF dtT tr (validateAux 0 ([] ++ rHuge :: []))) =
      minuteData numP (timeFilteredEvents numP dateP dtF dtT tr
        (validateAux 0 [] ++ validateAux (0 + ([] : List RawRecord).length + 1) []))) ∧
    (∀ (confStr : ℚ → List Char) cmin sf numP dateP dtF dtT tr,
      csvLines confStr (filteredEvents cmin sf
        (timeFilteredEvents numP dateP dtF dtT tr (validateAux 0 ([] ++ rHuge :: [])))) =
      csvHeader :: (filteredEvents cmin sf
        (timeFilteredEvents numP dateP dtF dtT tr
          (validateAux 0 ([] ++ rHuge :: [])))).map (csvRowOf confStr))) :=
  ⟨by decide, C6_invalid_size_dropped 0 [] [] rHuge (by decide)⟩

/-- Claim C7: a kept record's event copies the record's finite confidence
value, and defaults to 0.9 exactly when the confidence field is missing
or not a finite number. -/
theorem C7_confidence_default (k : ℕ) (r : RawRecord) (e : DetectionEvent)
    (h : mkEvent k r = some e) :
    (∀ q, r.confidence = some q → e.confidence = q) ∧
    (r.confidence = none → e.confidence = 9 / 10) := by
  unfold mkEvent at h
  cases hps : parseSize (orElseStr r.size "") with
  | none => rw [hps] at h; simp at h
  | some sz =>
    rw [hps] at h
    simp only [Option.some.injEq] at h
    subst h
    constructor
    · intro q hq
      simp [hq]
    · intro hq
      simp [hq]

/-- A raw record with a known size and no confidence field. -/
def rPlain : RawRecord :=
  { size := some "Small", time := none, confidence := none, source := none,
    id := none, timestamp := none, datetime := none, dateTime := none }

/-- A concrete instance of C7: the missing confidence defaults to 0.9. -/
theorem C7_confidence_default_witness :
    mkEvent 0 rPlain = some evDemo ∧
    ((∀ q, rPlain.confidence = some q → evDemo.confidence = q) ∧
      (rPlain.confidence = none → evDemo.confidence = 9 / 10)) :=
  ⟨rfl, C7_confidence_default 0 rPlain evDemo rfl⟩

/-! ## Generator lemmas -/

theorem floor_div220 (i : ℕ) :
    (Int.floor (((i : ℚ) / 220) * 3600)).toNat = i * 3600 / 220 := by
  rw [div_mul_eq_mul_div, Int.floor_toNat]
  have h1 : ((i : ℚ) * 3600) = ((i * 3600 : ℕ) : ℚ) := by push_cast; ring
  have h2 : (220 : ℚ) = ((220 : ℕ) : ℚ) := by norm_num
  rw [h1, h2]
  exact_mod_cast Nat.floor_div_nat ((i * 3600 : ℕ) : ℚ) 220

theorem genGo_length : ∀ (fuel i t : ℕ), (genGo fuel i t).length = fuel := by
  intro fuel
  induction fuel with
  | zero => intro i t; rfl
  | succ n ih =>
    intro i t
    simp only [genGo, List.length_cons, ih]

theorem genGo_get : ∀ (fuel i t j : ℕ), j < fuel →
    ((genGo fuel i t).get? j).map (fun e => (e.time, e.id, e.source)) =
      some (toHms ((i + j) * 3600 / 220), evtId (i + j + 1), "Cutting Table 1") := by
  intro fuel
  induction fuel with
  | zero => intro i t j hj; omega
  | succ n ih =>
    intro i t j hj
    cases j with
    | zero =>
      simp only [genGo, List.get?_cons_zero, Option.map_some, Nat.add_zero]
      rw [floor_div220]
      rfl
    | succ j =>
      simp only [genGo, List.get?_cons_succ]
      have := ih (i + 1) (mulberryNext (mulberryNext t).1).1 j (by omega)
      rw [this]
      have h1 : i + 1 + j = i + (j + 1) := by omega
      rw [h1]

/-- Claim C8: the synthetic generator is a pure function of the seed
string, so two invocations with the same seed agree element for element;
it produces exactly 220 events, and the i-th event carries time offset
`floor(i / 220 * 3600)` seconds, id `EVT-(i+1 padded)`, and the fixed
source label. -/
theorem C8_generator_deterministic (s : String) :
    genEvents s = genEvents s ∧
    (genEvents s).length = 220 ∧
    ∀ i, i < 220 →
      ((genEvents s).get? i).map (fun e => (e.time, e.id, e.source)) =
        some (toHms (i * 3600 / 220), evtId (i + 1), "Cutting Table 1") := by
  refine ⟨rfl, genGo_length 220 0 (seedFromString s), ?_⟩
  intro i hi
  have := genGo_get 220 0 (seedFromString s) i hi
  simpa using this

/-! ## CSV round-trip lemmas -/

theorem escQuote_cons_quote (f : List Char) :
    escQuote ('"' :: f) = '"' :: '"' :: escQuote f := by
  simp [escQuote]

theorem escQuote_cons_other (c : Char) (f : List Char) (hc : c ≠ '"') :
    escQuote (c :: f) = c :: escQuote f := by
  simp [escQuote, hc]

theorem unqGo_quote_quote (acc rest : List Char) :
    unqGo acc ('"' :: '"' :: rest) = unqGo (acc ++ ['"']) rest := by
  rw [unqGo.eq_def]
  simp

theorem unqGo_other (acc : List Char) (c : Char) (rest : List Char) (hc : c ≠ '"') :
    unqGo acc (c :: rest) = unqGo (acc ++ [c]) rest := by
  rw [unqGo.eq_def]
  simp [hc]

theorem unqGo_end (acc : List Char) : unqGo acc ['"'] = some [acc] := by
  rw [unqGo.eq_def]
  simp

theorem unqGo_comma (acc rest : List Char) :
    unqGo acc ('"' :: ',' :: '"' :: rest) = (unqGo [] rest).map fun fs => acc :: fs := by
  rw [unqGo.eq_def]
  simp

theorem unqGo_esc_end : ∀ (f acc : List Char),
    unqGo acc (escQuote f ++ ['"']) = some [acc ++ f] := by
  intro f
  induction f with
  | nil =>
    intro acc
    simp [escQuote, unqGo_end]
  | cons c f ih =>
    intro acc
    by_cases hc : c = '"'
    · subst hc
      rw [escQuote_cons_quote, List.cons_append, List.cons_append, unqGo_quote_quote,
        ih (acc ++ ['"'])]
      simp
    · rw [escQuote_cons_other c f hc, List.cons_append, unqGo_other acc c _ hc,
        ih (acc ++ [c])]
      simp

theorem unqGo_esc_mid : ∀ (f acc rest : List Char),
    unqGo acc (escQuote f ++ '"' :: ',' :: '"' :: rest) =
      (unqGo [] rest).map fun fs => (acc ++ f) :: fs := by
  intro f
  induction f with
  | nil =>
    intro acc rest
    simp [escQuote, unqGo_comma]
  | cons c f ih =>
    intro acc rest
    by_cases hc : c = '"'
    · subst hc
      rw [escQuote_cons_quote, List.cons_append, List.cons_append, unqGo_quote_quote,
        ih (acc ++ ['"'])]
      simp
    · rw [escQuote_cons_other c f hc, List.cons_append, unqGo_other acc c _ hc,
        ih (acc ++ [c])]
      simp

theorem parse_render : ∀ (fs : List (List Char)) (f : List Char),
    parseLine (joinComma ((f :: fs).map quoteField)) = some (f :: fs) := by
  intro fs
  induction fs with
  | nil =>
    intro f
    simp only [List.map_cons, List.map_nil, joinComma, quoteField, parseLine]
    rw [unqGo_esc_end]
    simp
  | cons f2 fs ih =>
    intro f
    obtain ⟨T2, hT⟩ : ∃ T2, joinComma ((f2 :: fs).map quoteField) = '"' :: T2 := by
      cases fs with
      | nil => exact ⟨escQuote f2 ++ ['"'], rfl⟩
      | cons f3 fs2 =>
        exact ⟨(escQuote f2 ++ ['"']) ++ ',' :: joinComma ((f3 :: fs2).map quoteField), rfl⟩
    have e1 : joinComma ((f :: f2 :: fs).map quoteField) =
        quoteField f ++ ',' :: joinComma ((f2 :: fs).map quoteField) := rfl
    have e2 : ∀ rest : List Char, parseLine ('"' :: rest) = unqGo [] rest := fun rest => rfl
    have e3 : quoteField f ++ ',' :: '"' :: T2 =
        '"' :: (escQuote f ++ '"' :: ',' :: '"' :: T2) := by
      simp [quoteField]
    have e4 : unqGo [] T2 = some (f2 :: fs) := by
      rw [← e2, ← hT]
      exact ih f2
    rw [e1, hT, e3, e2, unqGo_esc_mid, e4]
    simp

/-- Claim C9: the exporter emits the literal header line followed by one
row per event in list order; every field of a data row is individually
quoted with embedded quote characters doubled, and standard CSV unquoting
of a row recovers exactly the original time, size, source and id strings
and the exact serialized-confidence string (hence a numerically equal
confidence, since the same string is re-read). -/
theorem C9_csv_roundtrip (confStr : ℚ → List Char) (rows : List DetectionEvent) :
    csvLines confStr rows = csvHeader :: rows.map (csvRowOf confStr) ∧
    csvHeader = "time,size,confidence,source,id".data ∧
    ∀ e : DetectionEvent,
      parseLine (csvRowOf confStr e) =
        some [e.time.data, (sizeStr e.size).data, confStr e.confidence,
          e.source.data, e.id.data] := by
  refine ⟨rfl, rfl, ?_⟩
  intro e
  exact parse_render [(sizeStr e.size).data, confStr e.confidence,
    e.source.data, e.id.data] e.time.data

/-! ## Degenerate-time lemmas -/

/-- The total of minute bucket 0. -/
def bucket0Total (bs : List MinutePoint) : ℕ :=
  ((bs.get? 0).map MinutePoint.total).getD 0

theorem minuteData_append (numP : String → Option ℚ) (events : List DetectionEvent)
    (e : DetectionEvent) :
    minuteData numP (events ++ [e]) =
      bumpAt (minuteData numP events) (minIdx numP e) e.size := by
  simp [minuteData, List.foldl_append]

theorem bucket0Total_bumpAt_zero (bs : List MinutePoint) (sz : PizzaSize)
    (h : bs ≠ []) : bucket0Total (bumpAt bs 0 sz) = bucket0Total bs + 1 := by
  cases bs with
  | nil => exact absurd rfl h
  | cons b bs => simp [bumpAt, bucket0Total, bumpPoint_total]

theorem minuteData_ne_nil (numP : String → Option ℚ) (events : List DetectionEvent) :
    minuteData numP events ≠ [] := by
  have h := (foldl_bump_len_sum numP events initBuckets initBuckets_length).1
  intro hnil
  rw [minuteData] at hnil
  rw [hnil] at h
  simp at h

/-- Claim C10: an event whose time string does not have exactly three
colon-separated finite numeric components converts to 0 seconds, so the
aggregator counts it in minute bucket 0, and relative-mode filtering
treats it as offset 0: it is kept exactly when the trailing window
reaches back to offset 0. -/
theorem C10_unparseable_time_zero (numP : String → Option ℚ) (dateP : String → Option ℤ)
    (e : DetectionEvent)
    (H : ∀ h m s : ℚ,
      (splitChar ':' e.time.data).map (fun p => numP (String.mk p)) ≠
        [some h, some m, some s]) :
    hmsToSeconds numP e.time = 0 ∧
    minIdx numP e = 0 ∧
    (∀ events : List DetectionEvent,
      bucket0Total (minuteData numP (events ++ [e])) =
        bucket0Total (minuteData numP events) + 1) ∧
    (∀ tr, tr ≠ TimeRangeKey.all → ∀ events : List DetectionEvent, e ∈ events →
      (e ∈ timeFilteredEvents numP dateP none none tr events ↔
        maxOffset numP events ≤ trMinutes tr * 60)) := by
  have h0 : hmsToSeconds numP e.time = 0 := by
    unfold hmsToSeconds
    rcases hl : (splitChar ':' e.time.data).map (fun p => numP (String.mk p)) with
      _ | ⟨o1, _ | ⟨o2, _ | ⟨o3, _ | tl⟩⟩⟩
    · rfl
    · cases o1 <;> rfl
    · cases o1 <;> cases o2 <;> rfl
    · cases o1 with
      | none => rfl
      | some h =>
        cases o2 with
        | none => rfl
        | some m =>
          cases o3 with
          | none => rfl
          | some s => exact absurd hl (H h m s)
    · cases o1 <;> cases o2 <;> cases o3 <;> rfl
  have hidx : minIdx numP e = 0 := by
    simp [minIdx, clampN, h0]
  refine ⟨h0, hidx, ?_, ?_⟩
  · intro events
    rw [minuteData_append, hidx]
    exact bucket0Total_bumpAt_zero _ _ (minuteData_ne_nil numP events)
  · intro tr htr events he
    have hne : events ≠ [] := List.ne_nil_of_mem he
    have hemp : events.isEmpty = false := by
      cases events with
      | nil => exact absurd rfl hne
      | cons a l => rfl
    have hfil : timeFilteredEvents numP dateP none none tr events =
        events.filter fun x =>
          decide (maxOffset numP events - trMinutes tr * 60 ≤ hmsToSeconds numP x.time) &&
          decide (hmsToSeconds numP x.time ≤ maxOffset numP events) :=
      relative_filter_eq numP dateP tr events hne htr
    rw [hfil, List.mem_filter]
    simp only [h0, Bool.and_eq_true, decide_eq_true_eq]
    constructor
    · rintro ⟨-, hle, -⟩
      omega
    · intro hle
      exact ⟨he, by omega, Nat.zero_le _⟩

/-- An event with the malformed time string "abc". -/
def evBadTime : DetectionEvent :=
  { id := "EVT-9999", time := "abc", size := .Large, confidence := 1,
    source := "Cutting Table 1", timestamp := none }

/-- A concrete instance of C10 at `numP` that parses nothing and the
time string "abc". -/
theorem C10_unparseable_time_zero_witness :
    hmsToSeconds (fun _ => none) evBadTime.time = 0 ∧
    minIdx (fun _ => none) evBadTime = 0 ∧
    (∀ events : List DetectionEvent,
      bucket0Total (minuteData (fun _ => none) (events ++ [evBadTime])) =
        bucket0Total (minuteData (fun _ => none) events) + 1) ∧
    (∀ tr, tr ≠ TimeRangeKey.all → ∀ events : List DetectionEvent, evBadTime ∈ events →
      (evBadTime ∈ timeFilteredEvents (fun _ => none) (fun _ => none) none none tr events ↔
        maxOffset (fun _ => none) events ≤ trMinutes tr * 60)) :=
  C10_unparseable_time_zero (fun _ => none) (fun _ => none) evBadTime
    (by
      intro h m s hl
      rcases hsp : splitChar ':' (evBadTime.time.data) with _ | ⟨x, xs⟩
      · rw [hsp] at hl
        simp at hl
      · rw [hsp] at hl
        simp at hl)

end PixelAnalytics
